import Mathlib

/-!
Shallow embedding of the merchant-name blocking pipeline.

Python strings are modelled as lists of character code points (`Str`),
restricted to the ASCII behaviour of `str.upper`, `str.lower`,
`str.isdigit`, `re`'s `\w`, `\s` and `\d` classes.  A Python cell value
that may be a non-string (e.g. NaN from pandas) is modelled by `PyVal`.
-/

/-- A Python string, as the list of its character code points. -/
abbrev Str := List Nat

/-- Conversion from a Lean string literal to the code-point model. -/
def strLit (s : String) : Str := s.data.map Char.toNat

/-- Python `str.upper` on one character (ASCII range of the model). -/
def upperChar (c : Nat) : Nat := if 97 ≤ c ∧ c ≤ 122 then c - 32 else c

/-- Python `str.lower` on one character (ASCII range of the model). -/
def lowerChar (c : Nat) : Nat := if 65 ≤ c ∧ c ≤ 90 then c + 32 else c

/-- Membership in the regex class `\s` and the `str.strip`/`str.split` whitespace set. -/
def isSpaceChar (c : Nat) : Bool := c == 32 || c == 9 || c == 10 || c == 11 || c == 12 || c == 13

/-- Membership in the regex class `\w`: letters, digits, underscore (ASCII model). -/
def isWordChar (c : Nat) : Bool :=
  (decide (48 ≤ c) && decide (c ≤ 57)) || (decide (65 ≤ c) && decide (c ≤ 90)) ||
    (decide (97 ≤ c) && decide (c ≤ 122)) || c == 95

/-- A lowercase ASCII letter. -/
def isLowerAlpha (c : Nat) : Bool := decide (97 ≤ c) && decide (c ≤ 122)

/-- Left part of Python `str.strip`. -/
def lstrip (l : Str) : Str := l.dropWhile isSpaceChar

/-- Right part of Python `str.strip`. -/
def rstrip (l : Str) : Str := ((l.reverse).dropWhile isSpaceChar).reverse

/-- Python `str.strip`: drop whitespace at both ends. -/
def pyStrip (l : Str) : Str := rstrip (lstrip l)

/-- Auxiliary for `str.replace("CO.OP", "COOP")`: the `Nat` argument counts
characters of a matched occurrence still to be skipped.  Code points:
C = 67, O = 79, dot = 46, P = 80. -/
def replCOOPAux : Nat → Str → Str
  | _ + 1, [] => []
  | skip + 1, _ :: rest => replCOOPAux skip rest
  | 0, [] => []
  | 0, c :: rest =>
    if c = 67 ∧ rest.take 4 = [79, 46, 79, 80] then
      67 :: 79 :: 79 :: 80 :: replCOOPAux 4 rest
    else
      c :: replCOOPAux 0 rest

/-- Python `s.replace("CO.OP", "COOP")`: leftmost non-overlapping occurrences. -/
def replaceCOOP (l : Str) : Str := replCOOPAux 0 l

/-- Python `re.sub(r"[^\w\s]", " ", s)`: every non-word non-space character becomes a space. -/
def punctToSpace (l : Str) : Str := l.map (fun c => if isWordChar c || isSpaceChar c then c else 32)

/-- Python `re.sub(r"\s+", " ", s)`: collapse each whitespace run to one space. -/
def collapseWs : Str → Str
  | [] => []
  | [c] => [if isSpaceChar c then 32 else c]
  | a :: b :: rest =>
    if isSpaceChar a && isSpaceChar b then collapseWs (b :: rest)
    else (if isSpaceChar a then 32 else a) :: collapseWs (b :: rest)

/-- The normalization pipeline of `normalize_name` applied to an actual string:
uppercase, strip, rewrite CO.OP, punctuation to spaces, collapse whitespace, strip. -/
def normalizeStr (l : Str) : Str :=
  pyStrip (collapseWs (punctToSpace (replaceCOOP (pyStrip (l.map upperChar)))))

/-- A Python cell value: a string, or a non-string/missing value (e.g. NaN). -/
inductive PyVal
  | str (s : Str)
  | na
deriving DecidableEq

/-- Source `normalize_name` of parsing.py: non-strings normalize to the empty string. -/
def normalize_name : PyVal → Str
  | .str s => normalizeStr s
  | .na => []

/-- Auxiliary for Python `str.split()` with no separator: accumulate the current
token (reversed) and cut at whitespace runs. -/
def splitWsAux : Str → Str → List Str
  | [], acc => if acc.isEmpty then [] else [acc.reverse]
  | c :: rest, acc =>
    if isSpaceChar c then
      if acc.isEmpty then splitWsAux rest [] else acc.reverse :: splitWsAux rest []
    else splitWsAux rest (c :: acc)

/-- Source `tokenize` of parsing.py: empty input gives no tokens, otherwise `split()`. -/
def tokenize (name : Str) : List Str :=
  if name.isEmpty then [] else splitWsAux name []

/-- The 10 merchant categories of parsing.py. -/
inductive MerchantType
  | COMPANY_CT
  | HOUSEHOLD_HKD
  | PHARMACY
  | GAS
  | SHOP
  | CAFE
  | RESTAURANT_QUAN
  | HAIR_SALON
  | OFFICE_VP
  | OTHER
deriving DecidableEq

/-- The `.value` string of each `MerchantType` enum member. -/
def MerchantType.value : MerchantType → Str
  | .COMPANY_CT => strLit ("COMPANY_CT")
  | .HOUSEHOLD_HKD => strLit ("HOUSEHOLD_HKD")
  | .PHARMACY => strLit ("PHARMACY")
  | .GAS => strLit ("GAS")
  | .SHOP => strLit ("SHOP")
  | .CAFE => strLit ("CAFE")
  | .RESTAURANT_QUAN => strLit ("RESTAURANT_QUAN")
  | .HAIR_SALON => strLit ("HAIR_SALON")
  | .OFFICE_VP => strLit ("OFFICE_VP")
  | .OTHER => strLit ("OTHER")

/-- The fixed generic-token set of parsing.py (set membership only, a list suffices). -/
def GENERIC_TOKENS : List Str :=
  [strLit ("CH"), strLit ("CUA"), strLit ("HANG"), strLit ("TIEM"),
   strLit ("SHOP"), strLit ("STORE"), strLit ("MART"), strLit ("POS"),
   strLit ("QUAN"), strLit ("AN")]

/-- The fixed suffix-candidate set of parsing.py. -/
def SUFFIX_CANDIDATES : List Str :=
  [strLit ("BTL"), strLit ("Q1"), strLit ("Q2"), strLit ("Q3"), strLit ("Q4"),
   strLit ("Q5"), strLit ("Q6"), strLit ("Q7"), strLit ("Q8"), strLit ("Q9"),
   strLit ("Q10"), strLit ("Q11"), strLit ("Q12"), strLit ("GO"), strLit ("VAP"),
   strLit ("GV"), strLit ("OCP"), strLit ("CPC")]

/-- Source `_has_sequence`: true when `tokens` contains the exact contiguous
sequence `seq`, checking each slice `tokens[i:i+m]` for `i` in `range(n-m+1)`. -/
def has_sequence (tokens seq : List Str) : Bool :=
  if tokens = [] ∨ seq = [] then false
  else decide (∃ i < tokens.length - seq.length + 1,
    List.take seq.length (List.drop i tokens) = seq)

/-- Source `detect_type`: ordered first-match-wins rule chain. -/
def detect_type (tokens : List Str) : MerchantType :=
  if tokens = [] then .OTHER
  else if strLit ("HKD") ∈ tokens ∨
      has_sequence tokens [strLit ("HO"), strLit ("KINH"), strLit ("DOANH")] = true then
    .HOUSEHOLD_HKD
  else if has_sequence tokens [strLit ("NHA"), strLit ("THUOC")] = true then
    .PHARMACY
  else if has_sequence tokens [strLit ("QUAN"), strLit ("AN")] = true ∨
      has_sequence tokens [strLit ("NHA"), strLit ("HANG")] = true then
    .RESTAURANT_QUAN
  else if (strLit ("SALON") ∈ tokens ∧ strLit ("TOC") ∈ tokens) ∨
      has_sequence tokens [strLit ("TIEM"), strLit ("TOC")] = true then
    .HAIR_SALON
  else if strLit ("GAS") ∈ tokens then
    .GAS
  else if strLit ("CAFE") ∈ tokens ∨ strLit ("COFFEE") ∈ tokens then
    .CAFE
  else if (strLit ("CUA") ∈ tokens ∧ strLit ("HANG") ∈ tokens) ∨ strLit ("SHOP") ∈ tokens ∨
      strLit ("STORE") ∈ tokens ∨ strLit ("MART") ∈ tokens then
    .SHOP
  else if strLit ("VP") ∈ tokens ∨
      has_sequence tokens [strLit ("VAN"), strLit ("PHONG")] = true then
    .OFFICE_VP
  else if strLit ("CT") ∈ tokens ∨ strLit ("CTY") ∈ tokens ∨
      (strLit ("CONG") ∈ tokens ∧ strLit ("TY") ∈ tokens) ∨ strLit ("TNHH") ∈ tokens then
    .COMPANY_CT
  else .OTHER

/-- The nested `strip_sequence` helper of `_strip_type_prefix`: when the
contiguous sequence occurs, drop everything up to and including its first
occurrence; otherwise leave the list unchanged. -/
def strip_sequence (t seq : List Str) : List Str :=
  if has_sequence t seq = true then
    match (List.range (t.length - seq.length + 1)).find?
        (fun i => decide (List.take seq.length (List.drop i t) = seq)) with
    | some i => List.drop (i + seq.length) t
    | none => t
  else t

/-- Python `list.index` via the first matching position. -/
def idxOfTok (x : Str) (t : List Str) : Nat := t.findIdx (fun y => y == x)

/-- Source `_strip_type_prefix`: remove the leading tokens that belong to the
detected merchant type (named without the final source word because of a
naming restriction of this development). -/
def strip_type_pfx (tokens : List Str) (mtype : MerchantType) : List Str :=
  match mtype with
  | .HOUSEHOLD_HKD =>
    if strLit ("HKD") ∈ tokens then tokens.drop (idxOfTok (strLit ("HKD")) tokens + 1)
    else strip_sequence tokens [strLit ("HO"), strLit ("KINH"), strLit ("DOANH")]
  | .PHARMACY => strip_sequence tokens [strLit ("NHA"), strLit ("THUOC")]
  | .RESTAURANT_QUAN =>
    if has_sequence tokens [strLit ("QUAN"), strLit ("AN")] = true then
      strip_sequence tokens [strLit ("QUAN"), strLit ("AN")]
    else strip_sequence tokens [strLit ("NHA"), strLit ("HANG")]
  | .HAIR_SALON =>
    if has_sequence tokens [strLit ("SALON"), strLit ("TOC")] = true then
      strip_sequence tokens [strLit ("SALON"), strLit ("TOC")]
    else strip_sequence tokens [strLit ("TIEM"), strLit ("TOC")]
  | .GAS =>
    if tokens.head? = some (strLit ("GAS")) then tokens.tail else tokens
  | .CAFE =>
    if strLit ("CAFE") ∈ tokens then tokens.drop (idxOfTok (strLit ("CAFE")) tokens + 1)
    else if strLit ("COFFEE") ∈ tokens then tokens.drop (idxOfTok (strLit ("COFFEE")) tokens + 1)
    else tokens
  | .SHOP =>
    if has_sequence tokens [strLit ("CUA"), strLit ("HANG")] = true then
      strip_sequence tokens [strLit ("CUA"), strLit ("HANG")]
    else if tokens.head? = some (strLit ("CH")) then tokens.tail
    else if tokens.head? = some (strLit ("TIEM")) then tokens.tail
    else tokens
  | .OFFICE_VP =>
    if tokens.head? = some (strLit ("VP")) then tokens.tail
    else if has_sequence tokens [strLit ("VAN"), strLit ("PHONG")] = true then
      strip_sequence tokens [strLit ("VAN"), strLit ("PHONG")]
    else tokens
  | .COMPANY_CT =>
    tokens.dropWhile (fun tok =>
      tok == strLit ("CT") || tok == strLit ("CTY") || tok == strLit ("CONG") ||
        tok == strLit ("TY") || tok == strLit ("TNHH"))
  | .OTHER => tokens

/-- Source `extract_core`: first non-generic token after removing the type
prefix, or the empty string. -/
def extract_core (tokens : List Str) (mtype : MerchantType) : Str :=
  if tokens = [] then []
  else
    let t := strip_type_pfx tokens mtype
    let filtered := t.filter (fun tok => decide (tok ∉ GENERIC_TOKENS))
    filtered.headD []

/-- Python `str.isdigit` (ASCII model): nonempty and all characters are digits. -/
def isDigitTok (t : Str) : Bool := !t.isEmpty && t.all (fun c => decide (48 ≤ c) && decide (c ≤ 57))

/-- Python `re.match(r"^T\d+$", tok)` (ASCII model): `T` then one or more digits. -/
def isTNum (t : Str) : Bool :=
  match t with
  | 84 :: rest => !rest.isEmpty && rest.all (fun c => decide (48 ≤ c) && decide (c ≤ 57))
  | _ => false

/-- The per-token test of `extract_suffix`: digits, `T` + digits, or a suffix candidate. -/
def isSuffixTok (t : Str) : Bool := isDigitTok t || isTNum t || decide (t ∈ SUFFIX_CANDIDATES)

/-- Source `extract_suffix`: scan from the end collecting suffix tokens, stop at
the first token that is none of them, and restore left-to-right order. -/
def extract_suffix (tokens : List Str) : List Str :=
  ((tokens.reverse).takeWhile isSuffixTok).reverse

/-- The `ParsedMerchant` dataclass of parsing.py. -/
structure ParsedMerchant where
  raw_name : PyVal
  normalized : Str
  tokens : List Str
  mtype : MerchantType
  core : Str
  suffix_tokens : List Str
deriving DecidableEq

/-- Source `parse_merchant` of parsing.py: the full parsing pipeline. -/
def parse_merchant (name : PyVal) : ParsedMerchant :=
  let normalized := normalize_name name
  let tokens := tokenize normalized
  let mtype := detect_type tokens
  let core := extract_core tokens mtype
  let suffix_tokens := extract_suffix tokens
  { raw_name := name
    normalized := normalized
    tokens := tokens
    mtype := mtype
    core := core
    suffix_tokens := suffix_tokens }

/-- Source `build_block_key` of parsing.py: `"{mtype}|{core}"`; 124 is the bar. -/
def build_block_key (parsed : ParsedMerchant) : Str :=
  parsed.mtype.value ++ 124 :: parsed.core

namespace MB

/-!
The second copy of the pipeline, from merchant_blocking.py.  That file
duplicates parsing.py verbatim (it only additionally contains the blocking
driver); its definitions are embedded here under their own namespace so the
two copies can be compared extensionally (claim C10).  The primitives that
model the Python standard library (`re`, `str` methods) are shared.
-/

/-- The 10 merchant categories of merchant_blocking.py. -/
inductive MerchantType
  | COMPANY_CT
  | HOUSEHOLD_HKD
  | PHARMACY
  | GAS
  | SHOP
  | CAFE
  | RESTAURANT_QUAN
  | HAIR_SALON
  | OFFICE_VP
  | OTHER
deriving DecidableEq

/-- The `.value` string of each enum member in merchant_blocking.py. -/
def MerchantType.value : MerchantType → Str
  | .COMPANY_CT => strLit ("COMPANY_CT")
  | .HOUSEHOLD_HKD => strLit ("HOUSEHOLD_HKD")
  | .PHARMACY => strLit ("PHARMACY")
  | .GAS => strLit ("GAS")
  | .SHOP => strLit ("SHOP")
  | .CAFE => strLit ("CAFE")
  | .RESTAURANT_QUAN => strLit ("RESTAURANT_QUAN")
  | .HAIR_SALON => strLit ("HAIR_SALON")
  | .OFFICE_VP => strLit ("OFFICE_VP")
  | .OTHER => strLit ("OTHER")

/-- The generic-token set of merchant_blocking.py. -/
def GENERIC_TOKENS : List Str :=
  [strLit ("CH"), strLit ("CUA"), strLit ("HANG"), strLit ("TIEM"),
   strLit ("SHOP"), strLit ("STORE"), strLit ("MART"), strLit ("POS"),
   strLit ("QUAN"), strLit ("AN")]

/-- The suffix-candidate set of merchant_blocking.py. -/
def SUFFIX_CANDIDATES : List Str :=
  [strLit ("BTL"), strLit ("Q1"), strLit ("Q2"), strLit ("Q3"), strLit ("Q4"),
   strLit ("Q5"), strLit ("Q6"), strLit ("Q7"), strLit ("Q8"), strLit ("Q9"),
   strLit ("Q10"), strLit ("Q11"), strLit ("Q12"), strLit ("GO"), strLit ("VAP"),
   strLit ("GV"), strLit ("OCP"), strLit ("CPC")]

/-- `normalize_name` of merchant_blocking.py. -/
def normalize_name : PyVal → Str
  | .str s => normalizeStr s
  | .na => []

/-- `tokenize` of merchant_blocking.py. -/
def tokenize (name : Str) : List Str :=
  if name.isEmpty then [] else splitWsAux name []

/-- `_has_sequence` of merchant_blocking.py. -/
def has_sequence (tokens seq : List Str) : Bool :=
  if tokens = [] ∨ seq = [] then false
  else decide (∃ i < tokens.length - seq.length + 1,
    List.take seq.length (List.drop i tokens) = seq)

/-- `detect_type` of merchant_blocking.py. -/
def detect_type (tokens : List Str) : MerchantType :=
  if tokens = [] then .OTHER
  else if strLit ("HKD") ∈ tokens ∨
      has_sequence tokens [strLit ("HO"), strLit ("KINH"), strLit ("DOANH")] = true then
    .HOUSEHOLD_HKD
  else if has_sequence tokens [strLit ("NHA"), strLit ("THUOC")] = true then
    .PHARMACY
  else if has_sequence tokens [strLit ("QUAN"), strLit ("AN")] = true ∨
      has_sequence tokens [strLit ("NHA"), strLit ("HANG")] = true then
    .RESTAURANT_QUAN
  else if (strLit ("SALON") ∈ tokens ∧ strLit ("TOC") ∈ tokens) ∨
      has_sequence tokens [strLit ("TIEM"), strLit ("TOC")] = true then
    .HAIR_SALON
  else if strLit ("GAS") ∈ tokens then
    .GAS
  else if strLit ("CAFE") ∈ tokens ∨ strLit ("COFFEE") ∈ tokens then
    .CAFE
  else if (strLit ("CUA") ∈ tokens ∧ strLit ("HANG") ∈ tokens) ∨ strLit ("SHOP") ∈ tokens ∨
      strLit ("STORE") ∈ tokens ∨ strLit ("MART") ∈ tokens then
    .SHOP
  else if strLit ("VP") ∈ tokens ∨
      has_sequence tokens [strLit ("VAN"), strLit ("PHONG")] = true then
    .OFFICE_VP
  else if strLit ("CT") ∈ tokens ∨ strLit ("CTY") ∈ tokens ∨
      (strLit ("CONG") ∈ tokens ∧ strLit ("TY") ∈ tokens) ∨ strLit ("TNHH") ∈ tokens then
    .COMPANY_CT
  else .OTHER

/-- The nested `strip_sequence` helper of merchant_blocking.py. -/
def strip_sequence (t seq : List Str) : List Str :=
  if has_sequence t seq = true then
    match (List.range (t.length - seq.length + 1)).find?
        (fun i => decide (List.take seq.length (List.drop i t) = seq)) with
    | some i => List.drop (i + seq.length) t
    | none => t
  else t

/-- `_strip_type_prefix` of merchant_blocking.py. -/
def strip_type_pfx (tokens : List Str) (mtype : MerchantType) : List Str :=
  match mtype with
  | .HOUSEHOLD_HKD =>
    if strLit ("HKD") ∈ tokens then tokens.drop (idxOfTok (strLit ("HKD")) tokens + 1)
    else strip_sequence tokens [strLit ("HO"), strLit ("KINH"), strLit ("DOANH")]
  | .PHARMACY => strip_sequence tokens [strLit ("NHA"), strLit ("THUOC")]
  | .RESTAURANT_QUAN =>
    if has_sequence tokens [strLit ("QUAN"), strLit ("AN")] = true then
      strip_sequence tokens [strLit ("QUAN"), strLit ("AN")]
    else strip_sequence tokens [strLit ("NHA"), strLit ("HANG")]
  | .HAIR_SALON =>
    if has_sequence tokens [strLit ("SALON"), strLit ("TOC")] = true then
      strip_sequence tokens [strLit ("SALON"), strLit ("TOC")]
    else strip_sequence tokens [strLit ("TIEM"), strLit ("TOC")]
  | .GAS =>
    if tokens.head? = some (strLit ("GAS")) then tokens.tail else tokens
  | .CAFE =>
    if strLit ("CAFE") ∈ tokens then tokens.drop (idxOfTok (strLit ("CAFE")) tokens + 1)
    else if strLit ("COFFEE") ∈ tokens then tokens.drop (idxOfTok (strLit ("COFFEE")) tokens + 1)
    else tokens
  | .SHOP =>
    if has_sequence tokens [strLit ("CUA"), strLit ("HANG")] = true then
      strip_sequence tokens [strLit ("CUA"), strLit ("HANG")]
    else if tokens.head? = some (strLit ("CH")) then tokens.tail
    else if tokens.head? = some (strLit ("TIEM")) then tokens.tail
    else tokens
  | .OFFICE_VP =>
    if tokens.head? = some (strLit ("VP")) then tokens.tail
    else if has_sequence tokens [strLit ("VAN"), strLit ("PHONG")] = true then
      strip_sequence tokens [strLit ("VAN"), strLit ("PHONG")]
    else tokens
  | .COMPANY_CT =>
    tokens.dropWhile (fun tok =>
      tok == strLit ("CT") || tok == strLit ("CTY") || tok == strLit ("CONG") ||
        tok == strLit ("TY") || tok == strLit ("TNHH"))
  | .OTHER => tokens

/-- `extract_core` of merchant_blocking.py. -/
def extract_core (tokens : List Str) (mtype : MerchantType) : Str :=
  if tokens = [] then []
  else
    let t := strip_type_pfx tokens mtype
    let filtered := t.filter (fun tok => decide (tok ∉ GENERIC_TOKENS))
    filtered.headD []

/-- The per-token test of `extract_suffix` in merchant_blocking.py. -/
def isSuffixTok (t : Str) : Bool := isDigitTok t || isTNum t || decide (t ∈ SUFFIX_CANDIDATES)

/-- `extract_suffix` of merchant_blocking.py. -/
def extract_suffix (tokens : List Str) : List Str :=
  ((tokens.reverse).takeWhile isSuffixTok).reverse

/-- The `ParsedMerchant` dataclass of merchant_blocking.py. -/
structure ParsedMerchant where
  raw_name : PyVal
  normalized : Str
  tokens : List Str
  mtype : MerchantType
  core : Str
  suffix_tokens : List Str
deriving DecidableEq

/-- `parse_merchant` of merchant_blocking.py. -/
def parse_merchant (name : PyVal) : ParsedMerchant :=
  let normalized := normalize_name name
  let tokens := tokenize normalized
  let mtype := detect_type tokens
  let core := extract_core tokens mtype
  let suffix_tokens := extract_suffix tokens
  { raw_name := name
    normalized := normalized
    tokens := tokens
    mtype := mtype
    core := core
    suffix_tokens := suffix_tokens }

/-- `build_block_key` of merchant_blocking.py. -/
def build_block_key (parsed : ParsedMerchant) : Str :=
  parsed.mtype.value ++ 124 :: parsed.core

end MB

/-- The canonical identification of the two (identical) merchant-type enums,
parsing.py's onto merchant_blocking.py's. -/
def MerchantType.toMB : MerchantType → MB.MerchantType
  | .COMPANY_CT => .COMPANY_CT
  | .HOUSEHOLD_HKD => .HOUSEHOLD_HKD
  | .PHARMACY => .PHARMACY
  | .GAS => .GAS
  | .SHOP => .SHOP
  | .CAFE => .CAFE
  | .RESTAURANT_QUAN => .RESTAURANT_QUAN
  | .HAIR_SALON => .HAIR_SALON
  | .OFFICE_VP => .OFFICE_VP
  | .OTHER => .OTHER

/-!
The blocking driver of blocking.py.  CSV reading and the SQL engine are
external collaborators; what is modelled is the data they carry:

* A pandas DataFrame column is a list of (native index, cell) pairs.  The
  native index of a row is modelled as `Option Int`: `some k` when Python's
  `int(idx)` succeeds with value `k`, `none` when it raises.
* `pd.read_csv(path)` on a two-column table yields rows indexed by the
  global `RangeIndex` 0, 1, 2, ….
* `pd.read_csv(path, chunksize=c)` yields successive chunks of `c` rows
  whose `RangeIndex` continues across chunks (pandas does not restart the
  index at each chunk).
* Both the pandas inner merge and the DuckDB inner equi-join produce, up to
  output order, one joined row per key-matching pair; joins are modelled by
  the nested-loop list join `build_candidate_pairs`, and outputs are
  compared as unordered collections.
-/

/-- A row's native pandas index, as seen by `int(idx)`: an integer value or a
failure. -/
abbrev PyIdx := Option Int

/-- One row of a blocking dataframe (`records` entry of
`prepare_blocking_dataframe`); `suffix` is the suffix tokens joined by a
single space. -/
structure BlockRecord where
  source : Str
  row_id : Int
  raw_name : PyVal
  normalized : Str
  merchant_type : Str
  core : Str
  suffix : Str
  block_key : Str
deriving DecidableEq

/-- Python `" ".join(tokens)`. -/
def joinSpace (ts : List Str) : Str := List.intercalate [32] ts

/-- Source `prepare_blocking_dataframe` of blocking.py: one record per cell of
the column, with `row_id = row_offset + int(idx)` falling back to
`row_offset + i` (chunk-local position) when `int(idx)` raises. -/
def prepare_blocking_dataframe (cells : List (PyIdx × PyVal)) (source_label : Str)
    (row_offset : Int) : List BlockRecord :=
  cells.enum.map (fun p =>
    let row_id : Int :=
      match p.2.1 with
      | some k => row_offset + k
      | none => row_offset + Int.ofNat p.1
    let parsed := parse_merchant p.2.2
    { source := source_label
      row_id := row_id
      raw_name := parsed.raw_name
      normalized := parsed.normalized
      merchant_type := parsed.mtype.value
      core := parsed.core
      suffix := joinSpace parsed.suffix_tokens
      block_key := build_block_key parsed })

/-- Source `build_candidate_pairs`: inner equi-join of the two record lists on
`block_key` (the pandas merge, up to row order). -/
def build_candidate_pairs (df_block_1 df_block_2 : List BlockRecord) :
    List (BlockRecord × BlockRecord) :=
  df_block_1.flatMap (fun r1 =>
    (df_block_2.filter (fun r2 => r2.block_key == r1.block_key)).map (fun r2 => (r1, r2)))

/-- The two-column input table: each row holds the cells of `col_name_1` and
`col_name_2`. -/
abbrev InputTable := List (PyVal × PyVal)

/-- `pd.read_csv(path)`: rows carry the global integer `RangeIndex`. -/
def readCsv (rows : InputTable) : List (PyIdx × (PyVal × PyVal)) :=
  rows.enum.map (fun p => (some (Int.ofNat p.1), p.2))

/-- Fuel-indexed chunk splitting (fuel bounds the recursion depth). -/
def chunksOfAux (c : Nat) : Nat → List α → List (List α)
  | _, [] => []
  | 0, l => [l]
  | fuel + 1, l => l.take c :: chunksOfAux c fuel (l.drop c)

/-- `pd.read_csv(path, chunksize=c)` for `c > 0`: successive chunks of `c`
rows; the rows keep their global indices. -/
def chunksOf (c : Nat) (l : List α) : List (List α) := chunksOfAux c l.length l

/-- Source `run_blocking_pandas`, reduced to its data flow: read the table,
prepare both columns with offset 0, join on `block_key`. -/
def run_blocking_pandas (rows : InputTable) : List (BlockRecord × BlockRecord) :=
  let df := readCsv rows
  let df_b1 := prepare_blocking_dataframe (df.map (fun r => (r.1, r.2.1))) (strLit ("col1")) 0
  let df_b2 := prepare_blocking_dataframe (df.map (fun r => (r.1, r.2.2))) (strLit ("col2")) 0
  build_candidate_pairs df_b1 df_b2

/-- The chunk loop of `run_blocking_duckdb`: accumulate the two DuckDB tables
`b1`, `b2` and the running `rows_processed` counter over the CSV chunks. -/
def duckdb_tables (rows : InputTable) (chunksize : Option Int) :
    List BlockRecord × List BlockRecord × Nat :=
  let effective_chunksize : Nat :=
    match chunksize with
    | some c => if 0 < c then c.toNat else 200000
    | none => 200000
  (chunksOf effective_chunksize (readCsv rows)).foldl
    (fun acc chunk =>
      let df_b1 := prepare_blocking_dataframe (chunk.map (fun r => (r.1, r.2.1)))
        (strLit ("col1")) (Int.ofNat acc.2.2)
      let df_b2 := prepare_blocking_dataframe (chunk.map (fun r => (r.1, r.2.2)))
        (strLit ("col2")) (Int.ofNat acc.2.2)
      (acc.1 ++ df_b1, acc.2.1 ++ df_b2, acc.2.2 + chunk.length))
    ([], [], 0)

/-- Source `run_blocking_duckdb`, reduced to its data flow: chunked table
accumulation followed by one inner equi-join on `block_key`. -/
def run_blocking_duckdb (rows : InputTable) (chunksize : Option Int) :
    List (BlockRecord × BlockRecord) :=
  let tabs := duckdb_tables rows chunksize
  build_candidate_pairs tabs.1 tabs.2.1

/-- The two execution strategies `run_blocking` can dispatch to. -/
inductive EngineChoice
  | pandasEngine
  | duckdbEngine
deriving DecidableEq

/-- Python `str.lower` (ASCII model). -/
def lowerStr (l : Str) : Str := l.map lowerChar

/-- Outcome of the engine dispatch: either a chosen strategy, or the raised
`ValueError` with its message. -/
inductive DispatchResult
  | ok (engine : EngineChoice)
  | valueError (msg : Str)
deriving DecidableEq

/-- Source `run_blocking`: engine dispatch.  The function decides on the
engine string alone — before any input is read — returning either the chosen
strategy or the `ValueError` message `"Unknown engine: "` + engine. -/
def run_blocking (engine : Str) : DispatchResult :=
  let normalized_engine := lowerStr engine
  if normalized_engine = strLit ("pandas") then .ok .pandasEngine
  else if normalized_engine = strLit ("duckdb") then .ok .duckdbEngine
  else .valueError (strLit ("Unknown engine: ") ++ engine)

/-!
Spec-side definitions (from the specification's words, for refinement
claims; never used to define the code model above).
-/

/-- Modelled from the spec: "an exact, order-preserving, adjacent match at
some offset" — `seq` occurs contiguously in `tokens`. -/
def specContig (seq tokens : List Str) : Prop :=
  ∃ i ≤ tokens.length, List.take seq.length (List.drop i tokens) = seq

instance (seq tokens : List Str) : Decidable (specContig seq tokens) :=
  decidable_of_iff
    ((List.range (tokens.length + 1)).any
      (fun i => decide (List.take seq.length (List.drop i tokens) = seq)) = true)
    (by
      simp only [List.any_eq_true, decide_eq_true_eq, List.mem_range, Nat.lt_succ_iff]
      rfl)

/-- Modelled from the spec, §4.3: the classifier's rules in the spec's
priority order, first match wins, empty token sequence gives OTHER. -/
def detectTypeSpec (tokens : List Str) : MerchantType :=
  if tokens = [] then .OTHER
  else if strLit ("HKD") ∈ tokens ∨
      specContig [strLit ("HO"), strLit ("KINH"), strLit ("DOANH")] tokens then
    .HOUSEHOLD_HKD
  else if specContig [strLit ("NHA"), strLit ("THUOC")] tokens then
    .PHARMACY
  else if specContig [strLit ("QUAN"), strLit ("AN")] tokens ∨
      specContig [strLit ("NHA"), strLit ("HANG")] tokens then
    .RESTAURANT_QUAN
  else if (strLit ("SALON") ∈ tokens ∧ strLit ("TOC") ∈ tokens) ∨
      specContig [strLit ("TIEM"), strLit ("TOC")] tokens then
    .HAIR_SALON
  else if strLit ("GAS") ∈ tokens then
    .GAS
  else if strLit ("CAFE") ∈ tokens ∨ strLit ("COFFEE") ∈ tokens then
    .CAFE
  else if (strLit ("CUA") ∈ tokens ∧ strLit ("HANG") ∈ tokens) ∨ strLit ("SHOP") ∈ tokens ∨
      strLit ("STORE") ∈ tokens ∨ strLit ("MART") ∈ tokens then
    .SHOP
  else if strLit ("VP") ∈ tokens ∨
      specContig [strLit ("VAN"), strLit ("PHONG")] tokens then
    .OFFICE_VP
  else if strLit ("CT") ∈ tokens ∨ strLit ("CTY") ∈ tokens ∨
      (strLit ("CONG") ∈ tokens ∧ strLit ("TY") ∈ tokens) ∨ strLit ("TNHH") ∈ tokens then
    .COMPANY_CT
  else .OTHER

/-- The concrete two-row table refuting strategy equivalence: both columns
hold the string "A" in both rows. -/
def twoRowTable : InputTable :=
  [(PyVal.str (strLit ("A")), PyVal.str (strLit ("A"))),
   (PyVal.str (strLit ("A")), PyVal.str (strLit ("A")))]

/-!
Auxiliary predicates used by the idempotence proof: characters and strings
in the image of the normalizer.
-/

/-- A character that can appear in a normalized string: a word character
that is not a lowercase ASCII letter, or the single space 32. -/
def goodChar (c : Nat) : Bool := (isWordChar c && !isLowerAlpha c) || c == 32

/-- No two adjacent whitespace characters. -/
def noDD : Str → Bool
  | [] => true
  | [_] => true
  | a :: b :: rest => !(isSpaceChar a && isSpaceChar b) && noDD (b :: rest)


/-!
Theorems.  Helper lemmas come first, then one named theorem per claim
(with a witness where the statement carries hypotheses).
-/

theorem has_sequence_iff (tokens seq : List Str) (hs : seq ≠ []) :
    has_sequence tokens seq = true ↔ specContig seq tokens := by
  unfold has_sequence specContig
  by_cases ht : tokens = [] ∨ seq = []
  · rw [if_pos ht]
    rcases ht with ht | ht
    · subst ht
      simp only [Bool.false_eq_true, false_iff]
      rintro ⟨i, _, h⟩
      simp only [List.drop_nil, List.take_nil] at h
      exact hs h.symm
    · exact absurd ht hs
  · rw [if_neg ht, decide_eq_true_eq]
    constructor
    · rintro ⟨i, hi, h⟩
      exact ⟨i, by omega, h⟩
    · rintro ⟨i, hi, h⟩
      refine ⟨i, ?_, h⟩
      have hlen : (List.take seq.length (List.drop i tokens)).length = seq.length := by rw [h]
      rw [List.length_take, List.length_drop] at hlen
      have hsl : 0 < seq.length := List.length_pos.mpr hs
      omega

/-- C4: for every token sequence, `detect_type` returns exactly one of the 10
categories deterministically, testing the rules in the priority order of §4.3
with first match winning, where contiguous-subsequence rules mean an exact
adjacent order-preserving match at some offset, and the empty sequence gives
OTHER without testing any rule — i.e. `detect_type` coincides with the
rule chain `detectTypeSpec` written from the spec's words. -/
theorem detect_type_follows_spec (tokens : List Str) :
    detect_type tokens = detectTypeSpec tokens := by
  unfold detect_type detectTypeSpec
  simp only [has_sequence_iff _ _ (List.cons_ne_nil _ _)]

theorem strip_type_pfx_nil (mtype : MerchantType) : strip_type_pfx [] mtype = [] := by
  cases mtype <;> decide

theorem extract_core_mem (tokens : List Str) (mtype : MerchantType) :
    extract_core tokens mtype = [] ∨
      extract_core tokens mtype ∈ strip_type_pfx tokens mtype := by
  unfold extract_core
  split
  · exact Or.inl rfl
  · show ((strip_type_pfx tokens mtype).filter
        fun tok => decide (tok ∉ GENERIC_TOKENS)).headD [] = [] ∨
      ((strip_type_pfx tokens mtype).filter
        fun tok => decide (tok ∉ GENERIC_TOKENS)).headD [] ∈ strip_type_pfx tokens mtype
    rcases hf : (strip_type_pfx tokens mtype).filter (fun tok => decide (tok ∉ GENERIC_TOKENS))
      with _ | ⟨x, rest⟩
    · exact Or.inl rfl
    · right
      have hx : x ∈ (strip_type_pfx tokens mtype).filter
          (fun tok => decide (tok ∉ GENERIC_TOKENS)) := by
        rw [hf]; exact List.mem_cons_self x rest
      exact (List.mem_filter.mp hx).1

/-- C3 counterexample: on input "CUA CTY" the literal token "CTY" is what makes
`detect_type` pick COMPANY_CT (without it the type is not COMPANY_CT), and the
very same token is returned as the core. -/
theorem trigger_token_becomes_core :
    (parse_merchant (PyVal.str (strLit ("CUA CTY")))).mtype = .COMPANY_CT ∧
    strLit ("CTY") ∈ (parse_merchant (PyVal.str (strLit ("CUA CTY")))).tokens ∧
    detect_type ((parse_merchant (PyVal.str (strLit ("CUA CTY")))).tokens.filter
      (fun t => decide (t ≠ strLit ("CTY")))) ≠ .COMPANY_CT ∧
    (parse_merchant (PyVal.str (strLit ("CUA CTY")))).core = strLit ("CTY") := by
  decide

/-- C3 amended: for every input, the core is computed only from the tokens
remaining after the type-prefix strip — it is the empty string or a member of
the stripped token list.  (The original claim's consequence that the trigger
token can never be the core is false: stripping may leave the trigger token in
place, as the counterexample shows.) -/
theorem parse_core_from_stripped (name : PyVal) :
    (parse_merchant name).core = [] ∨
      (parse_merchant name).core ∈
        strip_type_pfx (parse_merchant name).tokens (parse_merchant name).mtype :=
  extract_core_mem (parse_merchant name).tokens (parse_merchant name).mtype

/-- C6: `extract_core` never returns a member of the generic-token set, and
when every token left after prefix stripping is generic it returns the empty
string. -/
theorem extract_core_not_generic (tokens : List Str) (mtype : MerchantType) :
    extract_core tokens mtype ∉ GENERIC_TOKENS ∧
    ((∀ tok ∈ strip_type_pfx tokens mtype, tok ∈ GENERIC_TOKENS) →
      extract_core tokens mtype = []) := by
  constructor
  · unfold extract_core
    split
    · decide
    · show ((strip_type_pfx tokens mtype).filter
        fun tok => decide (tok ∉ GENERIC_TOKENS)).headD [] ∉ GENERIC_TOKENS
      rcases hf : (strip_type_pfx tokens mtype).filter (fun tok => decide (tok ∉ GENERIC_TOKENS))
        with _ | ⟨x, rest⟩
      · decide
      · have hx : x ∈ (strip_type_pfx tokens mtype).filter
            (fun tok => decide (tok ∉ GENERIC_TOKENS)) := by
          rw [hf]; exact List.mem_cons_self x rest
        simpa using (List.mem_filter.mp hx).2
  · intro hall
    unfold extract_core
    split
    · rfl
    · show ((strip_type_pfx tokens mtype).filter
        fun tok => decide (tok ∉ GENERIC_TOKENS)).headD [] = []
      have hnil : (strip_type_pfx tokens mtype).filter
          (fun tok => decide (tok ∉ GENERIC_TOKENS)) = [] := by
        rw [List.filter_eq_nil_iff]
        intro a ha
        simpa using hall a ha
      rw [hnil]
      rfl

theorem extract_core_not_generic_witness :
    extract_core [strLit ("QUAN")] .SHOP ∉ GENERIC_TOKENS ∧
      extract_core [strLit ("QUAN")] .SHOP = [] :=
  ⟨(extract_core_not_generic [strLit ("QUAN")] .SHOP).1,
   (extract_core_not_generic [strLit ("QUAN")] .SHOP).2 (by decide)⟩

/-- C7: `extract_suffix` returns the empty sequence when the last token is
neither all digits, nor `T` + digits, nor a suffix candidate; and it returns
the whole list in original order when every token is one of those. -/
theorem extract_suffix_spec (tokens : List Str) :
    (∀ last, tokens.getLast? = some last → isSuffixTok last = false →
      extract_suffix tokens = []) ∧
    ((∀ tok ∈ tokens, isSuffixTok tok = true) → extract_suffix tokens = tokens) := by
  constructor
  · intro last hlast hfalse
    unfold extract_suffix
    rcases hr : tokens.reverse with _ | ⟨a, rest⟩
    · rfl
    · have ha : tokens.getLast? = some a := by rw [← List.head?_reverse, hr]; rfl
      have hla : last = a := by
        rw [hlast] at ha
        exact Option.some_inj.mp ha
      subst hla
      simp [List.takeWhile_cons, hfalse]
  · intro hall
    unfold extract_suffix
    have h1 : tokens.reverse.takeWhile isSuffixTok = tokens.reverse :=
      List.takeWhile_eq_self_iff.mpr (fun x hx => hall x (List.mem_reverse.mp hx))
    rw [h1, List.reverse_reverse]

theorem extract_suffix_spec_witness :
    extract_suffix [strLit ("XYZ")] = [] ∧
    extract_suffix [strLit ("Q1"), strLit ("22")] = [strLit ("Q1"), strLit ("22")] :=
  ⟨(extract_suffix_spec [strLit ("XYZ")]).1 (strLit ("XYZ")) (by decide) (by decide),
   (extract_suffix_spec [strLit ("Q1"), strLit ("22")]).2 (by decide)⟩

/-- C8: the worked example — input "Cty TNHH ABC Q1" normalizes to
"CTY TNHH ABC Q1", tokenizes to CTY/TNHH/ABC/Q1, is typed COMPANY_CT,
strips to ABC/Q1, has core "ABC" and suffix ["Q1"], and its block key is
"COMPANY_CT|ABC". -/
theorem parse_merchant_example :
    parse_merchant (PyVal.str (strLit ("Cty TNHH ABC Q1"))) =
      { raw_name := PyVal.str (strLit ("Cty TNHH ABC Q1"))
        normalized := strLit ("CTY TNHH ABC Q1")
        tokens := [strLit ("CTY"), strLit ("TNHH"), strLit ("ABC"), strLit ("Q1")]
        mtype := .COMPANY_CT
        core := strLit ("ABC")
        suffix_tokens := [strLit ("Q1")] } ∧
    strip_type_pfx [strLit ("CTY"), strLit ("TNHH"), strLit ("ABC"), strLit ("Q1")]
      .COMPANY_CT = [strLit ("ABC"), strLit ("Q1")] ∧
    build_block_key (parse_merchant (PyVal.str (strLit ("Cty TNHH ABC Q1")))) =
      strLit ("COMPANY_CT|ABC") := by
  decide

/-- C9: `run_blocking` raises the configuration error for every engine string
that does not designate one of the two modes (after lowercasing), and
dispatches to the matching strategy for the two known values.  The model's
type records that the decision is taken on the engine string alone, before
any input is read. -/
theorem run_blocking_dispatch (engine : Str) :
    (lowerStr engine ≠ strLit ("pandas") → lowerStr engine ≠ strLit ("duckdb") →
      run_blocking engine = .valueError (strLit ("Unknown engine: ") ++ engine)) ∧
    (lowerStr engine = strLit ("pandas") → run_blocking engine = .ok .pandasEngine) ∧
    (lowerStr engine = strLit ("duckdb") → run_blocking engine = .ok .duckdbEngine) := by
  refine ⟨fun h1 h2 => ?_, fun h => ?_, fun h => ?_⟩
  · unfold run_blocking
    rw [if_neg h1, if_neg h2]
  · unfold run_blocking
    rw [if_pos h]
  · unfold run_blocking
    rw [if_neg (by rw [h]; decide), if_pos h]

theorem run_blocking_dispatch_witness :
    run_blocking (strLit ("csv")) =
      .valueError (strLit ("Unknown engine: ") ++ strLit ("csv")) ∧
    run_blocking (strLit ("PANDAS")) = .ok .pandasEngine ∧
    run_blocking (strLit ("Duckdb")) = .ok .duckdbEngine :=
  ⟨(run_blocking_dispatch (strLit ("csv"))).1 (by decide) (by decide),
   (run_blocking_dispatch (strLit ("PANDAS"))).2.1 (by decide),
   (run_blocking_dispatch (strLit ("Duckdb"))).2.2 (by decide)⟩

/-- C1, evaluated at the failing input: on the two-row table whose four cells
are all "A", with chunk size 1, the in-memory strategy joins row ids 0/1 with
themselves while the chunked strategy assigns ids 0/2 (pandas chunks keep the
global RangeIndex, so `row_offset + int(idx)` double-counts), and the two
candidate-pair collections are not equal as unordered collections. -/
theorem blocking_strategies_diverge :
    (run_blocking_pandas twoRowTable).map (fun p => (p.1.row_id, p.2.row_id)) =
      [(0, 0), (0, 1), (1, 0), (1, 1)] ∧
    (run_blocking_duckdb twoRowTable (some 1)).map (fun p => (p.1.row_id, p.2.row_id)) =
      [(0, 0), (0, 2), (2, 0), (2, 2)] ∧
    ¬ (run_blocking_duckdb twoRowTable (some 1)).Perm (run_blocking_pandas twoRowTable) := by
  refine ⟨by decide, by decide, by decide⟩

/-- C2, evaluated at the failing input: chunked processing with the offsets
accumulated by `run_blocking_duckdb` assigns row ids 0 and 2 to the two rows,
while processing the whole input as a single chunk with offset 0 assigns 0
and 1. -/
theorem chunked_row_ids_diverge :
    (duckdb_tables twoRowTable (some 1)).1.map (fun r => r.row_id) = [0, 2] ∧
    (prepare_blocking_dataframe ((readCsv twoRowTable).map (fun r => (r.1, r.2.1)))
        (strLit ("col1")) 0).map (fun r => r.row_id) = [0, 1] ∧
    (duckdb_tables twoRowTable (some 1)).1.map (fun r => r.row_id) ≠
      (prepare_blocking_dataframe ((readCsv twoRowTable).map (fun r => (r.1, r.2.1)))
        (strLit ("col1")) 0).map (fun r => r.row_id) := by
  refine ⟨by decide, by decide, by decide⟩

theorem MB_has_sequence_eq (tokens seq : List Str) :
    MB.has_sequence tokens seq = has_sequence tokens seq := rfl

theorem MB_detect_type_eq (tokens : List Str) :
    MB.detect_type tokens = (detect_type tokens).toMB := by
  have hfun : MB.has_sequence = has_sequence := rfl
  unfold MB.detect_type detect_type
  rw [hfun]
  simp only [apply_ite MerchantType.toMB]
  rfl

theorem MB_strip_type_pfx_eq (tokens : List Str) (mtype : MerchantType) :
    MB.strip_type_pfx tokens mtype.toMB = strip_type_pfx tokens mtype := by
  cases mtype <;> rfl

theorem MB_extract_core_eq (tokens : List Str) (mtype : MerchantType) :
    MB.extract_core tokens mtype.toMB = extract_core tokens mtype := by
  cases mtype <;> rfl

theorem MB_value_eq (mtype : MerchantType) :
    MB.MerchantType.value mtype.toMB = mtype.value := by
  cases mtype <;> rfl

/-- C10: the parsing pipeline duplicated across the two source files is
extensionally equal — on every input the two `parse_merchant` copies agree on
every field (the two identical type enums identified by `MerchantType.toMB`),
and the two `build_block_key` copies return the same block key. -/
theorem parse_merchant_copies_agree (name : PyVal) :
    (MB.parse_merchant name).raw_name = (parse_merchant name).raw_name ∧
    (MB.parse_merchant name).normalized = (parse_merchant name).normalized ∧
    (MB.parse_merchant name).tokens = (parse_merchant name).tokens ∧
    (MB.parse_merchant name).mtype = (parse_merchant name).mtype.toMB ∧
    (MB.parse_merchant name).core = (parse_merchant name).core ∧
    (MB.parse_merchant name).suffix_tokens = (parse_merchant name).suffix_tokens ∧
    MB.build_block_key (MB.parse_merchant name) = build_block_key (parse_merchant name) := by
  refine ⟨rfl, rfl, rfl, ?_, ?_, rfl, ?_⟩
  · exact MB_detect_type_eq (tokenize (normalize_name name))
  · show MB.extract_core (tokenize (normalize_name name))
      (MB.detect_type (tokenize (normalize_name name))) = _
    rw [MB_detect_type_eq, MB_extract_core_eq]
    rfl
  · show MB.MerchantType.value (MB.detect_type (tokenize (normalize_name name))) ++
      124 :: MB.extract_core (tokenize (normalize_name name))
        (MB.detect_type (tokenize (normalize_name name))) = _
    rw [MB_detect_type_eq, MB_extract_core_eq, MB_value_eq]
    rfl

theorem isLowerAlpha_iff (c : Nat) : isLowerAlpha c = true ↔ 97 ≤ c ∧ c ≤ 122 := by
  unfold isLowerAlpha
  rw [← Bool.decide_and, decide_eq_true_eq]

theorem isWordChar_iff (c : Nat) : isWordChar c = true ↔
    (48 ≤ c ∧ c ≤ 57) ∨ (65 ≤ c ∧ c ≤ 90) ∨ (97 ≤ c ∧ c ≤ 122) ∨ c = 95 := by
  unfold isWordChar
  simp only [← Bool.decide_and, Bool.or_eq_true, decide_eq_true_eq, beq_iff_eq]
  tauto

theorem isSpaceChar_iff (c : Nat) : isSpaceChar c = true ↔
    c = 32 ∨ c = 9 ∨ c = 10 ∨ c = 11 ∨ c = 12 ∨ c = 13 := by
  unfold isSpaceChar
  simp only [Bool.or_eq_true, beq_iff_eq]
  tauto

theorem goodChar_iff (c : Nat) : goodChar c = true ↔
    (isWordChar c = true ∧ isLowerAlpha c = false) ∨ c = 32 := by
  unfold goodChar
  simp only [Bool.or_eq_true, Bool.and_eq_true, Bool.not_eq_true', beq_iff_eq]

theorem not_lower_of_bounds {x : Nat} (h : ¬(97 ≤ x ∧ x ≤ 122)) : isLowerAlpha x = false := by
  rw [show isLowerAlpha x = decide (97 ≤ x ∧ x ≤ 122) from by unfold isLowerAlpha; rw [Bool.decide_and]]
  exact decide_eq_false h

theorem upperChar_not_lower (c : Nat) : isLowerAlpha (upperChar c) = false := by
  unfold upperChar
  split
  · rename_i h
    exact not_lower_of_bounds (by omega)
  · rename_i h
    exact not_lower_of_bounds (by omega)

theorem upperChar_fix {c : Nat} (h : isLowerAlpha c = false) : upperChar c = c := by
  unfold upperChar
  rw [if_neg]
  intro hc
  rw [(isLowerAlpha_iff c).mpr hc] at h
  cases h

theorem goodChar_fix {c : Nat} (h : goodChar c = true) : upperChar c = c := by
  rcases (goodChar_iff c).mp h with ⟨_, hnl⟩ | rfl
  · exact upperChar_fix hnl
  · decide

theorem goodChar_space_eq_32 {c : Nat} (h : goodChar c = true) (hs : isSpaceChar c = true) :
    c = 32 := by
  rcases (goodChar_iff c).mp h with ⟨hw, _⟩ | rfl
  · rw [isWordChar_iff] at hw
    rw [isSpaceChar_iff] at hs
    omega
  · rfl

theorem goodChar_ite_space {c : Nat} (h : goodChar c = true) :
    (if isSpaceChar c then 32 else c) = c := by
  split
  · rename_i hs
    exact (goodChar_space_eq_32 h hs).symm
  · rfl

theorem map_id_of_mem {f : Nat → Nat} : ∀ l : Str, (∀ x ∈ l, f x = x) → l.map f = l := by
  intro l h
  induction l with
  | nil => rfl
  | cons a t ih =>
    rw [List.map_cons, h a (List.mem_cons_self a t),
      ih (fun x hx => h x (List.mem_cons_of_mem a hx))]

theorem dropWhile_eq_self_of_head {p : Nat → Bool} {l : Str}
    (h : ∀ c, l.head? = some c → p c = false) : l.dropWhile p = l := by
  cases l with
  | nil => rfl
  | cons a t =>
    rw [List.dropWhile_cons, if_neg]
    intro hp
    rw [h a rfl] at hp
    cases hp

theorem dropWhile_head?_false {p : Nat → Bool} : ∀ l : Str, ∀ c : Nat,
    (l.dropWhile p).head? = some c → p c = false := by
  intro l
  induction l with
  | nil => intro c hc; cases hc
  | cons a t ih =>
    intro c hc
    rw [List.dropWhile_cons] at hc
    by_cases hp : p a = true
    · rw [if_pos hp] at hc
      exact ih c hc
    · rw [if_neg hp] at hc
      have : a = c := Option.some_inj.mp hc
      subst this
      exact Bool.not_eq_true _ ▸ hp

theorem map_upper_not_lower (l : Str) : ∀ c ∈ l.map upperChar, isLowerAlpha c = false := by
  intro c hc
  rcases List.mem_map.mp hc with ⟨a, _, rfl⟩
  exact upperChar_not_lower a

theorem replCOOPAux_nil (skip : Nat) : replCOOPAux skip [] = [] := by
  cases skip <;> rfl

theorem replCOOPAux_no_dot : ∀ l : Str, 46 ∉ l → replCOOPAux 0 l = l := by
  intro l
  induction l with
  | nil => intro _; rfl
  | cons c rest ih =>
    intro h
    simp only [replCOOPAux]
    rw [if_neg, ih (fun hm => h (List.mem_cons_of_mem c hm))]
    rintro ⟨hc, htake⟩
    apply h
    have h46 : (46 : Nat) ∈ rest.take 4 := by rw [htake]; decide
    exact List.mem_cons_of_mem c (List.take_subset 4 rest h46)

theorem replCOOPAux_not_lower : ∀ (l : Str) (skip : Nat),
    (∀ c ∈ l, isLowerAlpha c = false) → ∀ c ∈ replCOOPAux skip l, isLowerAlpha c = false := by
  intro l
  induction l with
  | nil =>
    intro skip _ c hc
    rw [replCOOPAux_nil] at hc
    cases hc
  | cons a rest ih =>
    intro skip h c hc
    match skip with
    | s + 1 =>
      exact ih s (fun x hx => h x (List.mem_cons_of_mem a hx)) c hc
    | 0 =>
      simp only [replCOOPAux] at hc
      by_cases hcond : a = 67 ∧ rest.take 4 = [79, 46, 79, 80]
      · rw [if_pos hcond] at hc
        simp only [List.mem_cons] at hc
        rcases hc with rfl | rfl | rfl | rfl | hc
        · decide
        · decide
        · decide
        · decide
        · exact ih 4 (fun x hx => h x (List.mem_cons_of_mem a hx)) c hc
      · rw [if_neg hcond] at hc
        rcases List.mem_cons.mp hc with rfl | hc
        · exact h c (List.mem_cons_self c rest)
        · exact ih 0 (fun x hx => h x (List.mem_cons_of_mem a hx)) c hc

theorem punctToSpace_mem {l : Str} {c : Nat} (hc : c ∈ punctToSpace l) :
    c = 32 ∨ (c ∈ l ∧ (isWordChar c || isSpaceChar c) = true) := by
  unfold punctToSpace at hc
  rcases List.mem_map.mp hc with ⟨a, ha, rfl⟩
  by_cases hcnd : (isWordChar a || isSpaceChar a) = true
  · rw [if_pos hcnd]
    exact Or.inr ⟨ha, hcnd⟩
  · rw [if_neg hcnd]
    exact Or.inl rfl

theorem punctToSpace_not_lower {l : Str} (h : ∀ c ∈ l, isLowerAlpha c = false) :
    ∀ c ∈ punctToSpace l, isLowerAlpha c = false := by
  intro c hc
  unfold punctToSpace at hc
  rcases List.mem_map.mp hc with ⟨a, ha, rfl⟩
  split
  · exact h a ha
  · decide

theorem collapseWs_mem : ∀ l : Str, ∀ c ∈ collapseWs l, c = 32 ∨ (c ∈ l ∧ isSpaceChar c = false) := by
  intro l
  induction l with
  | nil => intro c hc; cases hc
  | cons a t ih =>
    intro c hc
    cases t with
    | nil =>
      simp only [collapseWs, List.mem_singleton] at hc
      subst hc
      by_cases hs : isSpaceChar a = true
      · rw [if_pos hs]
        exact Or.inl rfl
      · rw [if_neg hs]
        exact Or.inr ⟨List.mem_cons_self a [],
          Bool.not_eq_true _ ▸ hs⟩
    | cons b r =>
      simp only [collapseWs] at hc
      by_cases hcond : (isSpaceChar a && isSpaceChar b) = true
      · rw [if_pos hcond] at hc
        rcases ih c hc with h32 | ⟨hm, hns⟩
        · exact Or.inl h32
        · exact Or.inr ⟨List.mem_cons_of_mem a hm, hns⟩
      · rw [if_neg hcond] at hc
        rcases List.mem_cons.mp hc with rfl | hc2
        · by_cases hs : isSpaceChar a = true
          · rw [if_pos hs]
            exact Or.inl rfl
          · rw [if_neg hs]
            exact Or.inr ⟨List.mem_cons_self a (b :: r), Bool.not_eq_true _ ▸ hs⟩
        · rcases ih c hc2 with h32 | ⟨hm, hns⟩
          · exact Or.inl h32
          · exact Or.inr ⟨List.mem_cons_of_mem a hm, hns⟩

theorem collapseWs_head {a : Nat} (ha : isSpaceChar a = false) (t : Str) :
    (collapseWs (a :: t)).head? = some a := by
  cases t with
  | nil => simp [collapseWs, ha]
  | cons b r => simp [collapseWs, ha]

theorem noDD_cons_iff (x : Nat) (t : Str) : noDD (x :: t) = true ↔
    ((∀ y, t.head? = some y → (isSpaceChar x && isSpaceChar y) = false) ∧ noDD t = true) := by
  cases t with
  | nil => simp [noDD]
  | cons b r =>
    simp only [noDD, Bool.and_eq_true, Bool.not_eq_true', List.head?_cons, Option.some_inj]
    constructor
    · rintro ⟨h1, h2⟩
      exact ⟨fun y hy => hy ▸ h1, h2⟩
    · rintro ⟨h1, h2⟩
      exact ⟨h1 b rfl, h2⟩

theorem noDD_collapseWs : ∀ l : Str, noDD (collapseWs l) = true := by
  intro l
  induction l with
  | nil => rfl
  | cons a t ih =>
    cases t with
    | nil => simp [collapseWs, noDD]
    | cons b r =>
      simp only [collapseWs]
      by_cases hcond : (isSpaceChar a && isSpaceChar b) = true
      · rw [if_pos hcond]
        exact ih
      · rw [if_neg hcond]
        rw [noDD_cons_iff]
        refine ⟨?_, ih⟩
        intro y hy
        by_cases hsa : isSpaceChar a = true
        · have hsb : isSpaceChar b = false := by
            rcases Bool.and_eq_false_iff.mp (Bool.not_eq_true _ ▸ hcond) with h | h
            · rw [hsa] at h; cases h
            · exact h
          rw [collapseWs_head hsb r] at hy
          have : y = b := Option.some_inj.mp hy.symm
          subst this
          rw [if_pos hsa, hsb, Bool.and_false]
        · have hsa2 : isSpaceChar a = false := by
            cases hb : isSpaceChar a
            · rfl
            · exact absurd hb hsa
          rw [if_neg hsa, hsa2, Bool.false_and]

theorem noDD_append_right : ∀ s t : Str, noDD (s ++ t) = true → noDD t = true := by
  intro s
  induction s with
  | nil => intro t h; exact h
  | cons a s ih =>
    intro t h
    exact ih t ((noDD_cons_iff a (s ++ t)).mp h).2

theorem noDD_append_left : ∀ t s : Str, noDD (t ++ s) = true → noDD t = true := by
  intro t
  induction t with
  | nil => intro s _; rfl
  | cons a t ih =>
    intro s h
    rcases (noDD_cons_iff a (t ++ s)).mp h with ⟨hcon, htail⟩
    rw [noDD_cons_iff]
    refine ⟨?_, ih s htail⟩
    intro y hy
    apply hcon
    cases t with
    | nil => cases hy
    | cons u v =>
      rw [List.head?_cons] at hy
      rw [List.cons_append, List.head?_cons]
      exact hy

theorem noDD_infix {l₁ l₂ : Str} (h : l₁ <:+: l₂) (hn : noDD l₂ = true) : noDD l₁ = true := by
  rcases h with ⟨s, t, rfl⟩
  rw [List.append_assoc] at hn
  exact noDD_append_left l₁ t (noDD_append_right s (l₁ ++ t) hn)

theorem lstrip_isSuffix (l : Str) : lstrip l <:+ l := List.dropWhile_suffix isSpaceChar

theorem rstrip_isPrefix (l : Str) : rstrip l <+: l := by
  unfold rstrip
  exact List.reverse_suffix.mp (by
    rw [List.reverse_reverse]
    exact List.dropWhile_suffix isSpaceChar)

theorem pyStrip_isInfix (l : Str) : pyStrip l <:+: l :=
  (rstrip_isPrefix (lstrip l)).isInfix.trans (lstrip_isSuffix l).isInfix

theorem isPrefix_head? {l₁ l₂ : Str} (h : l₁ <+: l₂) {c : Nat} (hc : l₁.head? = some c) :
    l₂.head? = some c := by
  rcases h with ⟨t, rfl⟩
  cases l₁ with
  | nil => cases hc
  | cons a r =>
    rw [List.head?_cons] at hc
    rw [List.cons_append, List.head?_cons]
    exact hc

theorem pyStrip_head {l : Str} : ∀ c, (pyStrip l).head? = some c → isSpaceChar c = false := by
  intro c hc
  have h2 : (lstrip l).head? = some c := isPrefix_head? (rstrip_isPrefix (lstrip l)) hc
  exact dropWhile_head?_false l c h2

theorem pyStrip_last {l : Str} : ∀ c, (pyStrip l).getLast? = some c → isSpaceChar c = false := by
  intro c hc
  have h2 : ((lstrip l).reverse.dropWhile isSpaceChar).head? = some c := by
    rw [← List.getLast?_reverse]
    exact hc
  exact dropWhile_head?_false (lstrip l).reverse c h2

theorem normalizeStr_good (l : Str) : ∀ c ∈ normalizeStr l, goodChar c = true := by
  intro c hc
  unfold normalizeStr at hc
  have hc5 : c ∈ collapseWs (punctToSpace (replaceCOOP (pyStrip (l.map upperChar)))) :=
    (pyStrip_isInfix _).subset hc
  rcases collapseWs_mem _ c hc5 with rfl | ⟨hc4, hns⟩
  · decide
  · rcases punctToSpace_mem hc4 with rfl | ⟨hc3, hws⟩
    · decide
    · have hnl : isLowerAlpha c = false := by
        refine replCOOPAux_not_lower _ 0 ?_ c hc3
        intro x hx
        exact map_upper_not_lower l x ((pyStrip_isInfix (l.map upperChar)).subset hx)
      have hw : isWordChar c = true := by
        rcases Bool.or_eq_true_iff.mp hws with h | h
        · exact h
        · rw [h] at hns
          cases hns
      rw [goodChar_iff]
      exact Or.inl ⟨hw, hnl⟩

theorem normalizeStr_noDD (l : Str) : noDD (normalizeStr l) = true :=
  noDD_infix (pyStrip_isInfix _) (noDD_collapseWs _)

theorem map_upper_fix {l : Str} (h : ∀ c ∈ l, goodChar c = true) : l.map upperChar = l :=
  map_id_of_mem l (fun x hx => goodChar_fix (h x hx))

theorem lstrip_fix {l : Str} (h : ∀ c, l.head? = some c → isSpaceChar c = false) :
    lstrip l = l := dropWhile_eq_self_of_head h

theorem rstrip_fix {l : Str} (h : ∀ c, l.getLast? = some c → isSpaceChar c = false) :
    rstrip l = l := by
  unfold rstrip
  have h2 : l.reverse.dropWhile isSpaceChar = l.reverse :=
    dropWhile_eq_self_of_head (fun c hc => h c (by rwa [List.head?_reverse] at hc))
  rw [h2, List.reverse_reverse]

theorem pyStrip_fix {l : Str} (hh : ∀ c, l.head? = some c → isSpaceChar c = false)
    (hl : ∀ c, l.getLast? = some c → isSpaceChar c = false) : pyStrip l = l := by
  unfold pyStrip
  rw [lstrip_fix hh]
  exact rstrip_fix hl

theorem replaceCOOP_fix {l : Str} (h : ∀ c ∈ l, goodChar c = true) : replaceCOOP l = l :=
  replCOOPAux_no_dot l (fun h46 => absurd (h 46 h46) (by decide))

theorem punctToSpace_fix {l : Str} (h : ∀ c ∈ l, goodChar c = true) : punctToSpace l = l := by
  refine map_id_of_mem l (fun x hx => ?_)
  rcases (goodChar_iff x).mp (h x hx) with ⟨hw, _⟩ | rfl
  · rw [if_pos]
    rw [Bool.or_eq_true]
    exact Or.inl hw
  · decide

theorem collapseWs_fix : ∀ l : Str, (∀ c ∈ l, goodChar c = true) → noDD l = true →
    collapseWs l = l := by
  intro l
  induction l with
  | nil => intro _ _; rfl
  | cons a t ih =>
    intro hg hdd
    cases t with
    | nil =>
      show [if isSpaceChar a then 32 else a] = [a]
      rw [goodChar_ite_space (hg a (List.mem_cons_self a []))]
    | cons b r =>
      rcases (noDD_cons_iff a (b :: r)).mp hdd with ⟨hcon, htail⟩
      have hab : (isSpaceChar a && isSpaceChar b) = false := hcon b rfl
      simp only [collapseWs]
      rw [if_neg (by rw [hab]; exact Bool.false_ne_true)]
      rw [goodChar_ite_space (hg a (List.mem_cons_self a (b :: r))),
        ih (fun c hc => hg c (List.mem_cons_of_mem a hc)) htail]

theorem normalizeStr_fix {m : Str} (h1 : ∀ c ∈ m, goodChar c = true) (h2 : noDD m = true)
    (h3 : ∀ c, m.head? = some c → isSpaceChar c = false)
    (h4 : ∀ c, m.getLast? = some c → isSpaceChar c = false) : normalizeStr m = m := by
  unfold normalizeStr
  rw [map_upper_fix h1, pyStrip_fix h3 h4, replaceCOOP_fix h1, punctToSpace_fix h1,
    collapseWs_fix m h1 h2]
  exact pyStrip_fix h3 h4

/-- C5: `normalize` is idempotent on every input, including non-strings,
which normalize to the empty string: normalizing the result of
`normalize_name` returns it unchanged. -/
theorem normalize_name_idempotent (x : PyVal) :
    normalize_name (PyVal.str (normalize_name x)) = normalize_name x := by
  cases x with
  | na => rfl
  | str s =>
    show normalizeStr (normalizeStr s) = normalizeStr s
    exact normalizeStr_fix (normalizeStr_good s) (normalizeStr_noDD s)
      (fun c hc => pyStrip_head c hc) (fun c hc => pyStrip_last c hc)
